import Mathlib

/-!
Shallow embedding of `src/views/market_monopoly_page.py` (HHI market-concentration
page). Pure Python/pandas computations are translated into Lean functions over
explicit record lists; double-precision floats are modelled by exact rationals,
and a float NaN is modelled by `none` in an `Option` type. Lean identifiers keep
the Python names where possible, with the leading underscore of module-private
helpers dropped (`get_selected_score_records` models `_get_selected_score_records`,
and so on).
-/

set_option maxHeartbeats 1000000

namespace MarketMonopoly

/-- One prepared loan record, the row shape consumed by `render_page`
(fields `city`, `loanAmount`, `lender`). A non-numeric or missing
`loanAmount` (coerced to NaN by `pd.to_numeric(errors="coerce")`) is
modelled by `none`. -/
structure LoanRecord where
  city : String
  loanAmount : Option ℚ
  lender : String
  deriving DecidableEq

/-- One aggregated lender-bin row, the row shape produced by
`get_lender_to_loan_amount_bins` (columns `lender`, `loan_amount_bin`,
`num_loans`). -/
structure LenderBinRow where
  lender : String
  loan_amount_bin : String
  num_loans : ℕ
  deriving DecidableEq

/-- A lender-bin row after `_get_score_records` adds the derived columns
`bin_num_loans` (source lines 102-105) and `lender_num_loans_pct`
(source lines 107-111). -/
structure ScoredRow where
  lender : String
  loan_amount_bin : String
  num_loans : ℕ
  bin_num_loans : ℕ
  lender_num_loans_pct : ℚ
  deriving DecidableEq

/-- A segment score record, as appended by `_get_score_records`
(source lines 139-147). The float column `bin_num_loans_pct_std_dev`
is modelled by the square of the standard deviation (an exact rational),
with `none` modelling a float NaN. -/
structure ScoreRecord where
  city : String
  loan_amount_bin : String
  bin_num_loans : ℕ
  bin_num_loans_pct_std_dev : Option ℚ
  hhi : ℚ
  deriving DecidableEq

/-- Source line 19. -/
def CITY_NUM_LOANS_MIN_THREASHOLD : ℕ := 10

/-- Source line 20. -/
def BIN_NUM_LOANS_MIN_THREASHOLD : ℕ := 10

/-- Source line 21. -/
def HIGH_HHI_SEGMENT : String := "Top 10 Segments by Market Concentration"

/-- Source line 22. -/
def LOW_HHI_SEGMENT : String := "Top 10 Most Fragmented Market Segments"

/-- Source line 23. -/
def ALL_SEGMENT : String := "All Market Segments"

/-- The `order_map` dictionary of `_get_selected_score_records`
(source lines 65-74). -/
def order_map : List (String × ℕ) :=
  [("$5M - $10M", 1), ("$2.5M - $5M", 2), ("$1M - $2.5M", 3), ("$500K - $1M", 4),
   ("$250K - $500K", 5), ("$100K - $250K", 6), ("$50K - $100K", 7), ("$0 - $50K", 8)]

/-- Python `order_map.get(x["loan_amount_bin"], 999)` (source line 76). -/
def order_map_get (bin : String) : ℕ :=
  ((order_map.find? (fun p => decide (p.1 = bin))).map Prod.snd).getD 999

/-- The comparison used by `sorted(filtered_records, key=lambda x: x["hhi"], reverse=True)`
(source line 58): descending by `hhi`. -/
def hhiDescRel (a b : ScoreRecord) : Prop := b.hhi ≤ a.hhi

/-- The comparison used by `sorted(filtered_records, key=lambda x: x["hhi"])`
(source line 62): ascending by `hhi`. -/
def hhiAscRel (a b : ScoreRecord) : Prop := a.hhi ≤ b.hhi

/-- The comparison used by `sorted(filtered_records, key=lambda x: order_map.get(...))`
(source lines 75-77): ascending by canonical bin rank, unknown labels ranked 999. -/
def canonicalBinRel (a b : ScoreRecord) : Prop :=
  order_map_get a.loan_amount_bin ≤ order_map_get b.loan_amount_bin

instance : DecidableRel hhiDescRel :=
  fun a b => inferInstanceAs (Decidable (b.hhi ≤ a.hhi))

instance : DecidableRel hhiAscRel :=
  fun a b => inferInstanceAs (Decidable (a.hhi ≤ b.hhi))

instance : DecidableRel canonicalBinRel :=
  fun a b =>
    inferInstanceAs (Decidable (order_map_get a.loan_amount_bin ≤ order_map_get b.loan_amount_bin))

instance : IsTotal ScoreRecord canonicalBinRel :=
  ⟨fun _ _ => Nat.le_total _ _⟩

instance : IsTrans ScoreRecord canonicalBinRel :=
  ⟨fun _ _ _ => Nat.le_trans⟩

/-- The list comprehension of `_get_selected_score_records` (source lines 50-54):
keep records whose `bin_num_loans` meets the selected minimum. -/
def filteredRecords (score_records : List ScoreRecord) (selected_min_num_loans : ℕ) :
    List ScoreRecord :=
  score_records.filter (fun record => decide (selected_min_num_loans ≤ record.bin_num_loans))

/-- `_get_selected_score_records` (source lines 47-78). Python `sorted` is a
stable sort, so it is modelled by `List.insertionSort`, which is stable by
construction; `[:10]` is `List.take 10`. -/
def get_selected_score_records (score_records : List ScoreRecord)
    (selected_min_num_loans : ℕ) (market_category : String) : List ScoreRecord :=
  let filtered_records := filteredRecords score_records selected_min_num_loans
  if market_category = HIGH_HHI_SEGMENT then
    (List.insertionSort hhiDescRel filtered_records).take 10
  else if market_category = LOW_HHI_SEGMENT then
    (List.insertionSort hhiAscRel filtered_records).take 10
  else
    List.insertionSort canonicalBinRel filtered_records

/-- The early-return branch of `render_page` (source lines 313-316): with an
empty selection the page shows the no-data notice. -/
def shows_no_data_notice (selected_score_records : List ScoreRecord) : Bool :=
  selected_score_records.isEmpty

/-- The early-return branch of `render_page` (source lines 313-316): the
metrics, chart and table sections below it render only when the selection is
nonempty. -/
def renders_downstream_sections (selected_score_records : List ScoreRecord) : Bool :=
  !selected_score_records.isEmpty

/-!
### Specification-side characterization of a stable sort

The spec describes the sorts of the Segment Selector as stable: ties keep the
original relative order. The canonical formal reading decorates every element
with its position in the input and sorts by the key first and the position
second; `stableSortBy` realizes that reading, and `stableSortBy_eq` proves that
the sort used in the embedding of `_get_selected_score_records` agrees with it.
-/

/-- Position-refined comparison: compare by `r` first and, when the two
elements are equivalent under `r`, by original position. -/
def idxRel (r : α → α → Prop) (p q : ℕ × α) : Prop :=
  (r p.2 q.2 ∧ ¬ r q.2 p.2) ∨ (r p.2 q.2 ∧ r q.2 p.2 ∧ p.1 ≤ q.1)

instance (r : α → α → Prop) [DecidableRel r] : DecidableRel (idxRel r) := fun _ _ => by
  unfold idxRel
  infer_instance

/-- Sorting by `r` with ties decided by original position: the formal reading
of a stable sort by `r`, as described by the spec. -/
def stableSortBy (r : α → α → Prop) [DecidableRel r] (l : List α) : List α :=
  (l.enum.insertionSort (idxRel r)).map Prod.snd

theorem fst_le_of_mem_enumFrom {l : List α} {n : ℕ} {p : ℕ × α}
    (h : p ∈ l.enumFrom n) : n ≤ p.1 := by
  induction l generalizing n with
  | nil => simp at h
  | cons x xs ih =>
    rw [List.enumFrom_cons, List.mem_cons] at h
    rcases h with h | h
    · subst h; exact Nat.le_refl _
    · exact Nat.le_trans (Nat.le_succ n) (ih h)

theorem idxRel_iff_of_le (r : α → α → Prop) [DecidableRel r] {p q : ℕ × α}
    (h : p.1 ≤ q.1) : idxRel r p q ↔ r p.2 q.2 := by
  unfold idxRel
  by_cases hqp : r q.2 p.2 <;> by_cases hpq : r p.2 q.2 <;> simp [hqp, hpq, h]

theorem map_snd_orderedInsert (r : α → α → Prop) [DecidableRel r] (i : ℕ) (x : α)
    (S : List (ℕ × α)) (hS : ∀ p ∈ S, i < p.1) :
    (S.orderedInsert (idxRel r) (i, x)).map Prod.snd
      = (S.map Prod.snd).orderedInsert r x := by
  induction S with
  | nil => rfl
  | cons q T ih =>
    have hiq : i ≤ q.1 := Nat.le_of_lt (hS q (List.mem_cons_self q T))
    have hcond : idxRel r (i, x) q ↔ r x q.2 := idxRel_iff_of_le r hiq
    by_cases hrx : r x q.2
    · simp only [List.orderedInsert, if_pos (hcond.mpr hrx), if_pos hrx, List.map_cons]
    · simp only [List.orderedInsert, if_neg (fun hc => hrx (hcond.mp hc)), if_neg hrx,
        List.map_cons]
      rw [ih (fun p hp => hS p (List.mem_cons_of_mem q hp))]

theorem map_snd_insertionSort_enumFrom (r : α → α → Prop) [DecidableRel r]
    (l : List α) (k : ℕ) :
    ((l.enumFrom k).insertionSort (idxRel r)).map Prod.snd = l.insertionSort r := by
  induction l generalizing k with
  | nil => rfl
  | cons x xs ih =>
    rw [List.enumFrom_cons, List.insertionSort, List.insertionSort]
    have hidx : ∀ p ∈ (xs.enumFrom (k + 1)).insertionSort (idxRel r), k < p.1 := by
      intro p hp
      have hmem : p ∈ xs.enumFrom (k + 1) := (List.mem_insertionSort (idxRel r)).mp hp
      exact Nat.lt_of_lt_of_le (Nat.lt_succ_self k) (fst_le_of_mem_enumFrom hmem)
    rw [map_snd_orderedInsert r k x _ hidx, ih (k + 1)]

/-- The sort used in the embedding of `_get_selected_score_records` agrees with
the position-decorated stable sort of the spec. -/
theorem stableSortBy_eq (r : α → α → Prop) [DecidableRel r] (l : List α) :
    stableSortBy r l = l.insertionSort r := by
  unfold stableSortBy
  rw [List.enum_eq_enumFrom]
  exact map_snd_insertionSort_enumFrom r l 0

/-!
### The Segment Scorer: `_get_score_records` (source lines 81-149)

The scorer consumes, per city, the lender-bin table built by
`get_lender_to_loan_amount_bins` (imported from `utils/lender.py`, a repository
file that is not under `src/`; it is modelled from the spec below), adds the
`bin_num_loans` and `lender_num_loans_pct` columns, drops bins below the
minimum loan count, and emits one score record per surviving bin.
-/

/-- Modelled from the spec: the fixed bin table `BIN_EDGE_TO_LABEL` of
`utils/market_share_stacked_bar.py` (not under `src/`), read through the
ascending `bin_edges`/`bin_labels` lists built at source lines 89-93. Each
entry is (lower edge, upper edge, label); edges ascending, labels as in the
`order_map` of the selector. -/
def binIntervals : List (ℚ × ℚ × String) :=
  [(0, 50000, "$0 - $50K"), (50000, 100000, "$50K - $100K"),
   (100000, 250000, "$100K - $250K"), (250000, 500000, "$250K - $500K"),
   (500000, 1000000, "$500K - $1M"), (1000000, 2500000, "$1M - $2.5M"),
   (2500000, 5000000, "$2.5M - $5M"), (5000000, 10000000, "$5M - $10M")]

/-- The ascending `bin_labels` list (source lines 91-93), which is also the
category order of the categorical `loan_amount_bin` column produced by
`pd.cut`, and hence the group order of every `groupby("loan_amount_bin",
observed=True)`. -/
def bin_labels : List String := binIntervals.map (fun t => t.2.2)

/-- Modelled from the spec: the Bin Classifier. Maps a loan amount to the
label of the bin whose left-inclusive range contains it; amounts outside
every bin yield `none` and contribute to no bin. -/
def binLabelOf (amount : ℚ) : Option String :=
  (binIntervals.find? (fun t => decide (t.1 ≤ amount) && decide (amount < t.2.1))).map
    (fun t => t.2.2)

/-- Modelled from the spec: `get_lender_to_loan_amount_bins` from
`utils/lender.py`, a repository file not under `src/`. Per the spec (Lender
Aggregator): given the loan records of one city, return one row per
(lender, bin) pair present in the data with its loan count; bins with zero
loans are not emitted, and records with a missing or unbinnable amount are
excluded. The row order is not pinned by the spec. -/
def get_lender_to_loan_amount_bins (city_df : List LoanRecord) : List LenderBinRow :=
  let pairs : List (String × String) :=
    city_df.filterMap (fun lr => (lr.loanAmount.bind binLabelOf).map (fun b => (lr.lender, b)))
  pairs.dedup.map (fun p => { lender := p.1, loan_amount_bin := p.2, num_loans := pairs.count p })

/-- The per-bin loan counts of one bin: `num_loans` of every row of that bin. -/
def loanCounts (rows : List LenderBinRow) (bin : String) : List ℕ :=
  (rows.filter (fun r => decide (r.loan_amount_bin = bin))).map (fun r => r.num_loans)

/-- The `bin_num_loans` column (source lines 102-105):
`groupby("loan_amount_bin")["num_loans"].transform("sum")`. -/
def binNumLoansOf (rows : List LenderBinRow) (bin : String) : ℕ :=
  (loanCounts rows bin).sum

/-- One row of the table after source lines 102-111: the original lender-bin
row with the `bin_num_loans` and `lender_num_loans_pct` columns added. -/
def mkScoredRow (rows : List LenderBinRow) (r : LenderBinRow) : ScoredRow :=
  { lender := r.lender, loan_amount_bin := r.loan_amount_bin, num_loans := r.num_loans,
    bin_num_loans := binNumLoansOf rows r.loan_amount_bin,
    lender_num_loans_pct :=
      (r.num_loans : ℚ) / (binNumLoansOf rows r.loan_amount_bin : ℚ) * 100 }

/-- The table right after the percentage computation of source lines 107-111,
before the minimum-loan-count filter of source lines 113-115. -/
def withPct (rows : List LenderBinRow) : List ScoredRow :=
  rows.map (mkScoredRow rows)

/-- The table after the filter of source lines 113-115: only rows with
`bin_num_loans >= BIN_NUM_LOANS_MIN_THREASHOLD` remain. -/
def filteredScored (rows : List LenderBinRow) : List ScoredRow :=
  (withPct rows).filter (fun s => decide (BIN_NUM_LOANS_MIN_THREASHOLD ≤ s.bin_num_loans))

/-- One group of the `groupby("loan_amount_bin", observed=True)` over the
filtered table (source lines 117-135). -/
def binGroup (rows : List LenderBinRow) (bin : String) : List ScoredRow :=
  (filteredScored rows).filter (fun s => decide (s.loan_amount_bin = bin))

/-- The HHI of one bin (source lines 125-128):
`(x**2).sum()` over the `lender_num_loans_pct` values of the group. -/
def hhiOfBin (rows : List LenderBinRow) (bin : String) : ℚ :=
  ((binGroup rows bin).map (fun s => s.lender_num_loans_pct ^ 2)).sum

/-- Models the pandas sample standard deviation (`Series.std`, ddof = 1) of a
list of values by its square, since the square root of a rational is in
general irrational: `some` of the sample variance (squared deviations from the
mean divided by n - 1) when at least two values are present, and `none`
modelling the float NaN that pandas reports for fewer than two values. -/
def std_sq (xs : List ℚ) : Option ℚ :=
  if xs.length < 2 then none
  else some (((xs.map (fun x => (x - xs.sum / (xs.length : ℚ)) ^ 2)).sum) / ((xs.length : ℚ) - 1))

/-- The `bin_num_loans_pct_std_dev` value of one bin (source lines 117-123):
the sample standard deviation of the `lender_num_loans_pct` values of the
group, modelled by its square. -/
def stdOfBin (rows : List LenderBinRow) (bin : String) : Option ℚ :=
  std_sq ((binGroup rows bin).map (fun s => s.lender_num_loans_pct))

/-- The bins over which the final loop of source lines 131-147 runs: the
observed categories of the filtered table, in category order. -/
def observedBins (rows : List LenderBinRow) : List String :=
  bin_labels.filter (fun b => (filteredScored rows).any (fun s => decide (s.loan_amount_bin = b)))

/-- The body of the loop at source lines 131-147 for one bin: `continue` on an
empty group, else a score record from the first row of the group (`iloc[0]`),
the per-bin standard deviation and the per-bin HHI. -/
def scoreRecordForBin (city : String) (rows : List LenderBinRow) (b : String) :
    Option ScoreRecord :=
  match binGroup rows b with
  | [] => none
  | s :: _ =>
    some { city := city, loan_amount_bin := b, bin_num_loans := s.bin_num_loans,
           bin_num_loans_pct_std_dev := stdOfBin rows b, hhi := hhiOfBin rows b }

/-- The per-city body of `_get_score_records` (source lines 97-147). -/
def scoreRecordsForCity (city : String) (city_df : List LoanRecord) : List ScoreRecord :=
  (observedBins (get_lender_to_loan_amount_bins city_df)).filterMap
    (scoreRecordForBin city (get_lender_to_loan_amount_bins city_df))

/-- The per-city slice taken at source line 86:
`df[df["city"].isin(above_threshold_cities)]` restricted to one city. -/
def cityDfOf (df : List LoanRecord) (above_threshold_cities : List String) (city : String) :
    List LoanRecord :=
  (df.filter (fun r => decide (r.city ∈ above_threshold_cities))).filter
    (fun r => decide (r.city = city))

/-- The keys of `city_to_df` (source lines 85-87): the distinct cities of the
`isin`-filtered frame, in the sorted order `groupby("city")` produces. -/
def cityKeys (df : List LoanRecord) (above_threshold_cities : List String) : List String :=
  List.insertionSort (fun a b : String => a ≤ b)
    ((df.filter (fun r => decide (r.city ∈ above_threshold_cities))).map (fun r => r.city)).dedup

/-- `_get_score_records` (source lines 81-149). -/
def get_score_records (df : List LoanRecord) (above_threshold_cities : List String) :
    List ScoreRecord :=
  (cityKeys df above_threshold_cities).flatMap
    (fun c => scoreRecordsForCity c (cityDfOf df above_threshold_cities c))

/-- A bin label is canonical when it appears in the `order_map` table of the
selector (the eight labels of the fixed bin set). -/
def is_canonical_bin (bin : String) : Bool :=
  order_map.any (fun p => decide (p.1 = bin))

/-!
### Concrete inputs used by witnesses and counterexamples
-/

/-- Twelve loans in DOVER, all in the same bin: lender A holds 8, lender B
holds 4 (the worked example of the spec). -/
def exDf : List LoanRecord :=
  (List.replicate 8 { city := "DOVER", loanAmount := some 150000, lender := "A" : LoanRecord}) ++
  (List.replicate 4 { city := "DOVER", loanAmount := some 150000, lender := "B" : LoanRecord})

/-- The single score record the scorer produces on `exDf`: shares are 200/3
and 100/3 percent, the HHI is 50000/9 (about 5555.6), and the squared sample
standard deviation of the two shares is 5000/9. -/
def exRecord : ScoreRecord :=
  { city := "DOVER", loan_amount_bin := "$100K - $250K", bin_num_loans := 12,
    bin_num_loans_pct_std_dev := some (5000 / 9), hhi := 50000 / 9 }

/-- Five loans in one city, one lender, one bin: the whole bin stays below the
minimum loan count. -/
def exC2df : List LoanRecord :=
  List.replicate 5 { city := "A", loanAmount := some 10000, lender := "L1" : LoanRecord}

/-- The row the percentage stage computes on `exC2df`: a percentage is
computed although the bin holds only 5 loans. -/
def exC2Row : ScoredRow :=
  { lender := "L1", loan_amount_bin := "$0 - $50K", num_loans := 5, bin_num_loans := 5,
    lender_num_loans_pct := 100 }

/-- A score record with a large segment (20 loans) and a low HHI. -/
def exC3Rec : ScoreRecord :=
  { city := "C1", loan_amount_bin := "$0 - $50K", bin_num_loans := 20,
    bin_num_loans_pct_std_dev := none, hhi := 1000 }

/-- A score record with a small segment (10 loans) and a higher HHI. -/
def exC3RecSmall : ScoreRecord :=
  { city := "C2", loan_amount_bin := "$0 - $50K", bin_num_loans := 10,
    bin_num_loans_pct_std_dev := none, hhi := 2000 }

/-- Eleven score records: one large low-HHI segment and ten small high-HHI
segments. At threshold 20 only the large one survives; at threshold 10 the
ten high-HHI ones fill the top 10 and evict it. -/
def exC3Recs : List ScoreRecord :=
  exC3Rec :: List.replicate 10 exC3RecSmall

/-- One score record whose segment stays below every reachable threshold. -/
def exC8Recs : List ScoreRecord :=
  [{ city := "A", loan_amount_bin := "$0 - $50K", bin_num_loans := 5,
     bin_num_loans_pct_std_dev := none, hhi := 4000 }]

/-- One well-formed score record used to probe the category dispatch. -/
def exC10Recs : List ScoreRecord :=
  [{ city := "A", loan_amount_bin := "$0 - $50K", bin_num_loans := 12,
     bin_num_loans_pct_std_dev := none, hhi := 4000 }]

/-!
### Facts about the canonical bin ranking
-/

theorem order_map_get_of_canonical {bin : String} (h : is_canonical_bin bin = true) :
    order_map_get bin ≤ 8 := by
  unfold is_canonical_bin at h
  rw [List.any_eq_true] at h
  obtain ⟨p, hp, hpb⟩ := h
  cases hfind : order_map.find? (fun q => decide (q.1 = bin)) with
  | none =>
    rw [List.find?_eq_none] at hfind
    exact absurd hpb (hfind p hp)
  | some q =>
    have hq : q ∈ order_map := List.mem_of_find?_eq_some hfind
    have hq2 : q.2 ≤ 8 := by
      simp only [order_map, List.mem_cons, List.not_mem_nil, or_false] at hq
      rcases hq with h | h | h | h | h | h | h | h <;> subst h <;> decide
    simpa [order_map_get, hfind] using hq2

theorem order_map_get_of_not_canonical {bin : String} (h : is_canonical_bin bin = false) :
    order_map_get bin = 999 := by
  have hfind : order_map.find? (fun q => decide (q.1 = bin)) = none := by
    rw [List.find?_eq_none]
    intro p hp
    simp only [decide_eq_true_eq]
    intro hpb
    have hc : is_canonical_bin bin = true := by
      unfold is_canonical_bin
      rw [List.any_eq_true]
      exact ⟨p, hp, by simp [hpb]⟩
    rw [h] at hc
    cases hc
  simp [order_map_get, hfind]

theorem canonical_of_order_map_get_le {bin : String} (h : order_map_get bin ≤ 8) :
    is_canonical_bin bin = true := by
  cases hc : is_canonical_bin bin with
  | true => rfl
  | false =>
    rw [order_map_get_of_not_canonical hc] at h
    omega

/-!
### Claims about the Segment Selector
-/

/-- C4: For every list of score records and every threshold,
`_get_selected_score_records` with category MostConcentrated returns the
threshold-filtered records stably sorted by hhi descending and truncated to
the first 10, and with category MostFragmented returns them stably sorted by
hhi ascending and truncated to the first 10; ties in hhi keep the original
relative order of the filtered input (stability formalized by the
position-decorated sort `stableSortBy`). -/
theorem selected_top10_stable (score_records : List ScoreRecord) (t : ℕ) :
    get_selected_score_records score_records t HIGH_HHI_SEGMENT
      = (stableSortBy hhiDescRel (filteredRecords score_records t)).take 10 ∧
    get_selected_score_records score_records t LOW_HHI_SEGMENT
      = (stableSortBy hhiAscRel (filteredRecords score_records t)).take 10 := by
  constructor
  · rw [stableSortBy_eq]
    simp [get_selected_score_records, HIGH_HHI_SEGMENT, LOW_HHI_SEGMENT]
  · rw [stableSortBy_eq]
    simp [get_selected_score_records, HIGH_HHI_SEGMENT, LOW_HHI_SEGMENT]

/-- C5: For every list of score records and every threshold,
`_get_selected_score_records` with category All returns all threshold-filtered
records (no truncation: the output length equals the filtered length), stably
sorted by the fixed canonical bin order (rank 1 is the largest bin
"$5M - $10M", rank 8 the smallest "$0 - $50K", unknown labels rank 999), and
no record with a canonical label ever follows one with an unknown label. -/
theorem selected_all_canonical (score_records : List ScoreRecord) (t : ℕ) :
    get_selected_score_records score_records t ALL_SEGMENT
      = stableSortBy canonicalBinRel (filteredRecords score_records t) ∧
    (get_selected_score_records score_records t ALL_SEGMENT).length
      = (filteredRecords score_records t).length ∧
    (get_selected_score_records score_records t ALL_SEGMENT).Pairwise
      (fun a b => is_canonical_bin b.loan_amount_bin = true →
        is_canonical_bin a.loan_amount_bin = true) := by
  have hsel : get_selected_score_records score_records t ALL_SEGMENT
      = List.insertionSort canonicalBinRel (filteredRecords score_records t) := by
    simp [get_selected_score_records, HIGH_HHI_SEGMENT, LOW_HHI_SEGMENT, ALL_SEGMENT]
  refine ⟨by rw [stableSortBy_eq, hsel], by rw [hsel, List.length_insertionSort], ?_⟩
  rw [hsel]
  have hsorted : (List.insertionSort canonicalBinRel
      (filteredRecords score_records t)).Pairwise canonicalBinRel :=
    List.sorted_insertionSort canonicalBinRel (filteredRecords score_records t)
  refine hsorted.imp ?_
  intro a b hab hcb
  exact canonical_of_order_map_get_le (le_trans hab (order_map_get_of_canonical hcb))

/-- C10: Every category string other than the MostConcentrated and
MostFragmented titles is dispatched to the final `else` branch, so the
selector behaves exactly as with the All title: threshold filter, canonical
bin order, no truncation; in particular an unknown category never fails. -/
theorem selected_unknown_category (score_records : List ScoreRecord) (t : ℕ)
    (cat : String) (h1 : cat ≠ HIGH_HHI_SEGMENT) (h2 : cat ≠ LOW_HHI_SEGMENT) :
    get_selected_score_records score_records t cat
      = get_selected_score_records score_records t ALL_SEGMENT := by
  simp only [get_selected_score_records]
  rw [if_neg h1, if_neg h2, if_neg (by decide), if_neg (by decide)]

/-- Witness for C10: a concrete unrecognized category string is selected
exactly as the All category. -/
theorem selected_unknown_category_witness :
    get_selected_score_records exC10Recs 10 "Some Unknown Category"
      = get_selected_score_records exC10Recs 10 ALL_SEGMENT :=
  selected_unknown_category exC10Recs 10 "Some Unknown Category" (by decide) (by decide)

/-- C8: When no record meets the threshold, the selection is empty for every
category (the selector is a total function, so no exception is possible), and
on the empty selection the caller branch of `render_page` shows the no-data
notice and does not render the downstream sections. -/
theorem selected_empty_when_none_meet (score_records : List ScoreRecord) (t : ℕ)
    (cat : String) (h : ∀ r ∈ score_records, r.bin_num_loans < t) :
    get_selected_score_records score_records t cat = [] ∧
    shows_no_data_notice (get_selected_score_records score_records t cat) = true ∧
    renders_downstream_sections (get_selected_score_records score_records t cat) = false := by
  have hf : filteredRecords score_records t = [] := by
    simp only [filteredRecords, List.filter_eq_nil_iff, decide_eq_true_eq]
    intro r hr
    exact Nat.not_le.mpr (h r hr)
  have hsel : get_selected_score_records score_records t cat = [] := by
    simp only [get_selected_score_records, hf]
    split_ifs <;> simp
  exact ⟨hsel, by simp [shows_no_data_notice, hsel], by simp [renders_downstream_sections, hsel]⟩

/-- Witness for C8 on a concrete record list where nothing meets the
threshold. -/
theorem selected_empty_when_none_meet_witness :
    get_selected_score_records exC8Recs 10 ALL_SEGMENT = [] ∧
    shows_no_data_notice (get_selected_score_records exC8Recs 10 ALL_SEGMENT) = true ∧
    renders_downstream_sections (get_selected_score_records exC8Recs 10 ALL_SEGMENT) = false :=
  selected_empty_when_none_meet exC8Recs 10 ALL_SEGMENT (by decide)

/-- Counterexample to C3 as stated: with the MostConcentrated category,
lowering the threshold from 20 to 10 removes the previously selected record
`exC3Rec`, because ten higher-HHI records enter the filter and fill the
top 10. -/
theorem selection_monotone_counterexample :
    (10 : ℕ) < 20 ∧
    exC3Rec ∈ get_selected_score_records exC3Recs 20 HIGH_HHI_SEGMENT ∧
    exC3Rec ∉ get_selected_score_records exC3Recs 10 HIGH_HHI_SEGMENT := by
  refine ⟨by decide, ?_, ?_⟩
  · have h : get_selected_score_records exC3Recs 20 HIGH_HHI_SEGMENT = [exC3Rec] := by
      with_unfolding_all rfl
    rw [h]
    exact List.mem_singleton.mpr rfl
  · have h : get_selected_score_records exC3Recs 10 HIGH_HHI_SEGMENT
        = List.replicate 10 exC3RecSmall := by
      with_unfolding_all rfl
    rw [h]
    intro hmem
    have heq := (List.mem_replicate.mp hmem).2
    simp [exC3Rec, exC3RecSmall, ScoreRecord.mk.injEq] at heq

/-- C3 amended: the threshold filter itself is monotone (every record passing
the higher threshold passes the lower one), and the full selection is monotone
for every category other than the two top-10 ones, whose truncation can evict
previously selected records (see the counterexample). -/
theorem selection_monotone_amended (score_records : List ScoreRecord) (cat : String)
    (T T' : ℕ) (hTT : T ≤ T') :
    (∀ r ∈ filteredRecords score_records T', r ∈ filteredRecords score_records T) ∧
    (cat ≠ HIGH_HHI_SEGMENT → cat ≠ LOW_HHI_SEGMENT →
      ∀ r ∈ get_selected_score_records score_records T' cat,
        r ∈ get_selected_score_records score_records T cat) := by
  have hmono : ∀ r ∈ filteredRecords score_records T', r ∈ filteredRecords score_records T := by
    intro r hr
    rw [filteredRecords, List.mem_filter, decide_eq_true_eq] at hr ⊢
    exact ⟨hr.1, Nat.le_trans hTT hr.2⟩
  refine ⟨hmono, fun h1 h2 r hr => ?_⟩
  simp only [get_selected_score_records, if_neg h1, if_neg h2] at hr ⊢
  rw [List.mem_insertionSort] at hr ⊢
  exact hmono r hr

/-- Witness for the amended C3: on the eleven-record example with the All
category, the record selected at threshold 20 is still selected at
threshold 10. -/
theorem selection_monotone_amended_witness :
    exC3Rec ∈ get_selected_score_records exC3Recs 10 ALL_SEGMENT :=
  (selection_monotone_amended exC3Recs ALL_SEGMENT 10 20 (by decide)).2
    (by decide) (by decide) exC3Rec
    (by
      have h : get_selected_score_records exC3Recs 20 ALL_SEGMENT = [exC3Rec] := by
        with_unfolding_all rfl
      rw [h]
      exact List.mem_singleton.mpr rfl)

/-!
### Facts about the Segment Scorer
-/

theorem mem_rows_num_loans {city_df : List LoanRecord} {row : LenderBinRow}
    (h : row ∈ get_lender_to_loan_amount_bins city_df) : 1 ≤ row.num_loans := by
  simp only [get_lender_to_loan_amount_bins, List.mem_map] at h
  obtain ⟨p, hp, rfl⟩ := h
  exact List.count_pos_iff.mpr (List.mem_dedup.mp hp)

theorem binGroup_eq {rows : List LenderBinRow} {bin : String}
    (h : BIN_NUM_LOANS_MIN_THREASHOLD ≤ binNumLoansOf rows bin) :
    binGroup rows bin
      = (rows.filter (fun r => decide (r.loan_amount_bin = bin))).map (mkScoredRow rows) := by
  unfold binGroup filteredScored withPct
  rw [List.filter_filter, List.filter_map]
  congr 1
  apply List.filter_congr
  intro r _
  by_cases hb : r.loan_amount_bin = bin
  · simp [Function.comp, mkScoredRow, hb, h]
  · simp [Function.comp, mkScoredRow, hb]

theorem binGroup_eq_nil {rows : List LenderBinRow} {bin : String}
    (h : binNumLoansOf rows bin < BIN_NUM_LOANS_MIN_THREASHOLD) :
    binGroup rows bin = [] := by
  unfold binGroup filteredScored withPct
  rw [List.filter_filter, List.filter_map, List.filter_eq_nil_iff.mpr, List.map_nil]
  intro r _
  by_cases hb : r.loan_amount_bin = bin
  · simp only [Function.comp, mkScoredRow, hb, Bool.and_eq_true, decide_eq_true_eq, not_and]
    intro hmin
    omega
  · simp [Function.comp, mkScoredRow, hb]

theorem binGroup_pcts {rows : List LenderBinRow} {bin : String}
    (h : BIN_NUM_LOANS_MIN_THREASHOLD ≤ binNumLoansOf rows bin) :
    (binGroup rows bin).map (fun s => s.lender_num_loans_pct)
      = (loanCounts rows bin).map
          (fun (n : ℕ) => (n : ℚ) / (binNumLoansOf rows bin : ℚ) * 100) := by
  rw [binGroup_eq h]
  unfold loanCounts
  rw [List.map_map, List.map_map]
  apply List.map_congr_left
  intro r hr
  have hb : r.loan_amount_bin = bin := by
    simpa using (List.mem_filter.mp hr).2
  simp [Function.comp, mkScoredRow, hb]

theorem binGroup_length {rows : List LenderBinRow} {bin : String}
    (h : BIN_NUM_LOANS_MIN_THREASHOLD ≤ binNumLoansOf rows bin) :
    (binGroup rows bin).length = (loanCounts rows bin).length := by
  rw [binGroup_eq h]
  unfold loanCounts
  rw [List.length_map, List.length_map]

theorem loanCounts_pos {city_df : List LoanRecord} {bin : String} :
    ∀ n ∈ loanCounts (get_lender_to_loan_amount_bins city_df) bin, 1 ≤ n := by
  intro n hn
  unfold loanCounts at hn
  rw [List.mem_map] at hn
  obtain ⟨row, hrow, rfl⟩ := hn
  exact mem_rows_num_loans (List.mem_of_mem_filter hrow)

theorem sum_map_div (xs : List ℕ) (N : ℚ) :
    (xs.map (fun (n : ℕ) => (n : ℚ) / N * 100)).sum = (xs.sum : ℚ) / N * 100 := by
  induction xs with
  | nil => simp
  | cons a t ih =>
    simp only [List.map_cons, List.sum_cons, ih, Nat.cast_add]
    ring

theorem sum_map_div_sq (xs : List ℕ) (N : ℚ) :
    (xs.map (fun (n : ℕ) => ((n : ℚ) / N * 100) ^ 2)).sum
      = ((((xs.map (fun n => n ^ 2)).sum : ℕ) : ℚ)) * 10000 / N ^ 2 := by
  induction xs with
  | nil => simp
  | cons a t ih =>
    simp only [List.map_cons, List.sum_cons, ih]
    push_cast
    ring

theorem nat_sum_sq_le (ns : List ℕ) : (ns.map (fun n => n ^ 2)).sum ≤ ns.sum ^ 2 := by
  induction ns with
  | nil => simp
  | cons a t ih =>
    simp only [List.map_cons, List.sum_cons]
    calc a ^ 2 + (t.map (fun n => n ^ 2)).sum ≤ a ^ 2 + t.sum ^ 2 :=
          Nat.add_le_add_left ih _
      _ ≤ (a + t.sum) ^ 2 := by nlinarith [Nat.zero_le (a * t.sum)]

theorem nat_sum_sq_eq_iff {ns : List ℕ} (h1 : ∀ n ∈ ns, 1 ≤ n) (hne : ns ≠ []) :
    ((ns.map (fun n => n ^ 2)).sum = ns.sum ^ 2 ↔ ns.length = 1) := by
  match ns, hne with
  | [a], _ => simp
  | a :: b :: t, _ =>
    have ha : 1 ≤ a := h1 a (by simp)
    have hb : 1 ≤ b := h1 b (by simp)
    have hs : 1 ≤ b + t.sum := by omega
    have hle : ((b :: t).map (fun n => n ^ 2)).sum ≤ (b :: t).sum ^ 2 := nat_sum_sq_le _
    constructor
    · intro heq
      exfalso
      simp only [List.map_cons, List.sum_cons] at heq hle
      nlinarith [heq, hle, ha, hs]
    · intro hlen
      exfalso
      simp only [List.length_cons] at hlen
      omega

theorem scoreRecordForBin_eq_some {city : String} {rows : List LenderBinRow} {b : String}
    {r : ScoreRecord} (h : scoreRecordForBin city rows b = some r) :
    r.city = city ∧ r.loan_amount_bin = b ∧
    BIN_NUM_LOANS_MIN_THREASHOLD ≤ binNumLoansOf rows b ∧
    r.bin_num_loans = binNumLoansOf rows b ∧
    r.hhi = hhiOfBin rows b ∧
    r.bin_num_loans_pct_std_dev = stdOfBin rows b ∧
    binGroup rows b ≠ [] := by
  unfold scoreRecordForBin at h
  cases hg : binGroup rows b with
  | nil =>
    rw [hg] at h
    cases h
  | cons s tail =>
    rw [hg] at h
    injection h with h
    subst h
    have hsmem : s ∈ binGroup rows b := by
      rw [hg]
      exact List.mem_cons_self s tail
    have h2 := List.mem_filter.mp hsmem
    have hsb : s.loan_amount_bin = b := by simpa using h2.2
    have h3 := List.mem_filter.mp h2.1
    have hmin : BIN_NUM_LOANS_MIN_THREASHOLD ≤ s.bin_num_loans := by simpa using h3.2
    obtain ⟨r0, _, hs⟩ := List.mem_map.mp h3.1
    have hbnl : s.bin_num_loans = binNumLoansOf rows b := by
      rw [← hs] at hsb ⊢
      simp only [mkScoredRow] at hsb ⊢
      rw [hsb]
    refine ⟨rfl, rfl, ?_, hbnl, rfl, rfl, ?_⟩
    · rw [← hbnl]
      exact hmin
    · simp

theorem mem_get_score_records {df : List LoanRecord} {cities : List String}
    {r : ScoreRecord} (h : r ∈ get_score_records df cities) :
    scoreRecordForBin r.city (get_lender_to_loan_amount_bins (cityDfOf df cities r.city))
      r.loan_amount_bin = some r := by
  unfold get_score_records at h
  rw [List.mem_flatMap] at h
  obtain ⟨c, _, hr⟩ := h
  unfold scoreRecordsForCity at hr
  rw [List.mem_filterMap] at hr
  obtain ⟨b, _, hsome⟩ := hr
  obtain ⟨hcity, hbin, -⟩ := scoreRecordForBin_eq_some hsome
  rw [hcity, hbin]
  exact hsome

theorem hhiOfBin_eq {rows : List LenderBinRow} {bin : String}
    (h : BIN_NUM_LOANS_MIN_THREASHOLD ≤ binNumLoansOf rows bin) :
    hhiOfBin rows bin
      = (((((loanCounts rows bin).map (fun n => n ^ 2)).sum : ℕ) : ℚ)) * 10000
          / (binNumLoansOf rows bin : ℚ) ^ 2 := by
  unfold hhiOfBin
  have hcomp : (binGroup rows bin).map (fun s => s.lender_num_loans_pct ^ 2)
      = ((binGroup rows bin).map (fun s => s.lender_num_loans_pct)).map (fun x => x ^ 2) := by
    rw [List.map_map]
    rfl
  rw [hcomp, binGroup_pcts h, List.map_map]
  exact sum_map_div_sq (loanCounts rows bin) (binNumLoansOf rows bin)

theorem hhi_rat_facts (ns : List ℕ) (hcnt : ∀ n ∈ ns, 1 ≤ n) (hne : ns ≠ [])
    (hpos : 0 < ns.sum) :
    (0 < ((((ns.map (fun n => n ^ 2)).sum : ℕ) : ℚ)) * 10000 / ((ns.sum : ℚ)) ^ 2) ∧
    (((((ns.map (fun n => n ^ 2)).sum : ℕ) : ℚ)) * 10000 / ((ns.sum : ℚ)) ^ 2 ≤ 10000) ∧
    (((((ns.map (fun n => n ^ 2)).sum : ℕ) : ℚ)) * 10000 / ((ns.sum : ℚ)) ^ 2 = 10000
      ↔ ns.length = 1) := by
  have hS_le : (ns.map (fun n => n ^ 2)).sum ≤ ns.sum ^ 2 := nat_sum_sq_le ns
  have hSpos : 0 < (ns.map (fun n => n ^ 2)).sum := by
    obtain ⟨n, hn⟩ := List.exists_mem_of_ne_nil ns hne
    have h1 : 1 ≤ n ^ 2 := by
      have := hcnt n hn
      nlinarith
    have h2 : n ^ 2 ∈ ns.map (fun n => n ^ 2) := List.mem_map_of_mem _ hn
    exact lt_of_lt_of_le h1 (List.single_le_sum (fun _ _ => Nat.zero_le _) _ h2)
  have hNq : (0 : ℚ) < (ns.sum : ℚ) := by exact_mod_cast hpos
  have hN2 : (0 : ℚ) < ((ns.sum : ℚ)) ^ 2 := pow_pos hNq 2
  have hcast : ((((ns.map (fun n => n ^ 2)).sum : ℕ) : ℚ)) ≤ ((ns.sum : ℚ)) ^ 2 := by
    exact_mod_cast hS_le
  refine ⟨?_, ?_, ?_⟩
  · exact div_pos (mul_pos (by exact_mod_cast hSpos) (by norm_num)) hN2
  · rw [div_le_iff₀ hN2]
    nlinarith [hcast]
  · rw [div_eq_iff (ne_of_gt hN2)]
    constructor
    · intro heq
      apply (nat_sum_sq_eq_iff hcnt hne).mp
      have hq : ((((ns.map (fun n => n ^ 2)).sum : ℕ) : ℚ)) = ((ns.sum : ℚ)) ^ 2 := by
        linarith [heq]
      exact_mod_cast hq
    · intro hlen
      have := (nat_sum_sq_eq_iff hcnt hne).mpr hlen
      rw [this]
      push_cast
      ring

theorem exRecord_mem : exRecord ∈ get_score_records exDf ["DOVER"] := by
  have h : get_score_records exDf ["DOVER"] = [exRecord] := by with_unfolding_all rfl
  rw [h]
  exact List.mem_singleton.mpr rfl

/-!
### Claims about the Segment Scorer
-/

/-- C9: Every score record returned by the scorer has `bin_num_loans` at least
the minimum threshold (10): below-threshold segments never materialize, for
every input frame and city list. -/
theorem score_record_bin_num_loans_min (df : List LoanRecord) (cities : List String)
    (r : ScoreRecord) (h : r ∈ get_score_records df cities) :
    BIN_NUM_LOANS_MIN_THREASHOLD ≤ r.bin_num_loans := by
  obtain ⟨-, -, hmin, hbnl, -, -, -⟩ := scoreRecordForBin_eq_some (mem_get_score_records h)
  rw [hbnl]
  exact hmin

/-- Witness for C9 on the concrete DOVER example. -/
theorem score_record_bin_num_loans_min_witness :
    BIN_NUM_LOANS_MIN_THREASHOLD ≤ exRecord.bin_num_loans :=
  score_record_bin_num_loans_min exDf ["DOVER"] exRecord exRecord_mem

/-- C6: For every segment scored by the scorer, the `lender_num_loans_pct`
values of the lenders of that segment sum to exactly 100 (floats are modelled
by exact rationals, so the floating-point tolerance of the claim sharpens to
equality); the segment total is positive since it is at least 10. -/
theorem score_record_pct_sum (df : List LoanRecord) (cities : List String)
    (r : ScoreRecord) (h : r ∈ get_score_records df cities) :
    ((binGroup (get_lender_to_loan_amount_bins (cityDfOf df cities r.city))
        r.loan_amount_bin).map (fun s => s.lender_num_loans_pct)).sum = 100 := by
  obtain ⟨-, -, hmin, -, -, -, -⟩ := scoreRecordForBin_eq_some (mem_get_score_records h)
  rw [binGroup_pcts hmin, sum_map_div]
  have hX : (10 : ℕ) ≤ (loanCounts (get_lender_to_loan_amount_bins
      (cityDfOf df cities r.city)) r.loan_amount_bin).sum := hmin
  have hne0 : ((loanCounts (get_lender_to_loan_amount_bins
      (cityDfOf df cities r.city)) r.loan_amount_bin).sum : ℚ) ≠ 0 := by
    have : (0 : ℕ) < (loanCounts (get_lender_to_loan_amount_bins
        (cityDfOf df cities r.city)) r.loan_amount_bin).sum := by omega
    exact_mod_cast Nat.pos_iff_ne_zero.mp this
  show ((loanCounts (get_lender_to_loan_amount_bins
      (cityDfOf df cities r.city)) r.loan_amount_bin).sum : ℚ)
    / ((loanCounts (get_lender_to_loan_amount_bins
      (cityDfOf df cities r.city)) r.loan_amount_bin).sum : ℚ) * 100 = 100
  rw [div_self hne0, one_mul]

/-- Witness for C6 on the concrete DOVER example. -/
theorem score_record_pct_sum_witness :
    ((binGroup (get_lender_to_loan_amount_bins (cityDfOf exDf ["DOVER"] exRecord.city))
        exRecord.loan_amount_bin).map (fun s => s.lender_num_loans_pct)).sum = 100 :=
  score_record_pct_sum exDf ["DOVER"] exRecord exRecord_mem

/-- C1: Every score record has `hhi` equal to the sum of squared lender share
percentages of its segment (by construction, through `hhiOfBin`), and
`0 < hhi ≤ 10000`, with `hhi = 10000` exactly when the segment consists of a
single lender row holding 100 percent of the loans of the segment. -/
theorem score_record_hhi_range (df : List LoanRecord) (cities : List String)
    (r : ScoreRecord) (h : r ∈ get_score_records df cities) :
    r.hhi = hhiOfBin (get_lender_to_loan_amount_bins (cityDfOf df cities r.city))
        r.loan_amount_bin ∧
    0 < r.hhi ∧ r.hhi ≤ 10000 ∧
    (r.hhi = 10000 ↔ ∃ s, binGroup (get_lender_to_loan_amount_bins
        (cityDfOf df cities r.city)) r.loan_amount_bin = [s]
      ∧ s.lender_num_loans_pct = 100) := by
  obtain ⟨-, -, hmin, -, hhhi, -, hgne⟩ := scoreRecordForBin_eq_some (mem_get_score_records h)
  have hcnt : ∀ n ∈ loanCounts (get_lender_to_loan_amount_bins
      (cityDfOf df cities r.city)) r.loan_amount_bin, 1 ≤ n := loanCounts_pos
  have hlen : (binGroup (get_lender_to_loan_amount_bins
        (cityDfOf df cities r.city)) r.loan_amount_bin).length
      = (loanCounts (get_lender_to_loan_amount_bins
        (cityDfOf df cities r.city)) r.loan_amount_bin).length := binGroup_length hmin
  have hX : (10 : ℕ) ≤ (loanCounts (get_lender_to_loan_amount_bins
      (cityDfOf df cities r.city)) r.loan_amount_bin).sum := hmin
  have hne : loanCounts (get_lender_to_loan_amount_bins
      (cityDfOf df cities r.city)) r.loan_amount_bin ≠ [] := by
    intro h0
    apply hgne
    apply List.length_eq_zero.mp
    rw [hlen, h0]
    rfl
  have hpos : 0 < (loanCounts (get_lender_to_loan_amount_bins
      (cityDfOf df cities r.city)) r.loan_amount_bin).sum := by omega
  obtain ⟨hq0, hq1, hq2⟩ := hhi_rat_facts _ hcnt hne hpos
  have hform : r.hhi = (((((loanCounts (get_lender_to_loan_amount_bins
      (cityDfOf df cities r.city)) r.loan_amount_bin).map (fun n => n ^ 2)).sum : ℕ) : ℚ))
        * 10000 / (((loanCounts (get_lender_to_loan_amount_bins
      (cityDfOf df cities r.city)) r.loan_amount_bin).sum : ℚ)) ^ 2 := by
    rw [hhhi, hhiOfBin_eq hmin]
    rfl
  refine ⟨hhhi, by rw [hform]; exact hq0, by rw [hform]; exact hq1, ?_⟩
  rw [hform]
  refine hq2.trans ?_
  constructor
  · intro h3
    obtain ⟨n, hns1⟩ := List.length_eq_one.mp h3
    have hg1 : (binGroup (get_lender_to_loan_amount_bins
        (cityDfOf df cities r.city)) r.loan_amount_bin).length = 1 := by
      rw [hlen, h3]
    obtain ⟨s, hgs⟩ := List.length_eq_one.mp hg1
    refine ⟨s, hgs, ?_⟩
    have hmap := binGroup_pcts hmin
    rw [hgs, hns1] at hmap
    simp only [List.map_cons, List.map_nil] at hmap
    have hpct : s.lender_num_loans_pct
        = (n : ℚ) / (binNumLoansOf (get_lender_to_loan_amount_bins
            (cityDfOf df cities r.city)) r.loan_amount_bin : ℚ) * 100 := by
      injection hmap
    have hNn : binNumLoansOf (get_lender_to_loan_amount_bins
        (cityDfOf df cities r.city)) r.loan_amount_bin = n := by
      show (loanCounts (get_lender_to_loan_amount_bins
        (cityDfOf df cities r.city)) r.loan_amount_bin).sum = n
      rw [hns1]
      simp
    have hn1 : 1 ≤ n := by
      apply hcnt
      rw [hns1]
      simp
    rw [hpct, hNn, div_self (by exact_mod_cast Nat.pos_iff_ne_zero.mp (by omega)), one_mul]
  · rintro ⟨s, hgs, -⟩
    have hg1 : (binGroup (get_lender_to_loan_amount_bins
        (cityDfOf df cities r.city)) r.loan_amount_bin).length = 1 := by
      rw [hgs]
      rfl
    rw [hlen] at hg1
    exact hg1

/-- Witness for C1 on the concrete DOVER example (hhi is 50000/9, strictly
between 0 and 10000, and the segment has two lenders). -/
theorem score_record_hhi_range_witness :
    exRecord.hhi = hhiOfBin (get_lender_to_loan_amount_bins
        (cityDfOf exDf ["DOVER"] exRecord.city)) exRecord.loan_amount_bin ∧
    0 < exRecord.hhi ∧ exRecord.hhi ≤ 10000 ∧
    (exRecord.hhi = 10000 ↔ ∃ s, binGroup (get_lender_to_loan_amount_bins
        (cityDfOf exDf ["DOVER"] exRecord.city)) exRecord.loan_amount_bin = [s]
      ∧ s.lender_num_loans_pct = 100) :=
  score_record_hhi_range exDf ["DOVER"] exRecord exRecord_mem

/-- C7: The stored `bin_num_loans_pct_std_dev` of every score record is the
sample standard deviation (denominator n - 1, modelled by its square `std_sq`)
of the lender share percentages of its segment, and it is NaN (modelled by
`none`) precisely when the segment has exactly one lender row; the NaN is
stored in the record rather than raising an exception. -/
theorem score_record_std_dev (df : List LoanRecord) (cities : List String)
    (r : ScoreRecord) (h : r ∈ get_score_records df cities) :
    r.bin_num_loans_pct_std_dev
      = std_sq ((binGroup (get_lender_to_loan_amount_bins
          (cityDfOf df cities r.city)) r.loan_amount_bin).map
            (fun s => s.lender_num_loans_pct)) ∧
    (r.bin_num_loans_pct_std_dev = none
      ↔ (binGroup (get_lender_to_loan_amount_bins
          (cityDfOf df cities r.city)) r.loan_amount_bin).length = 1) := by
  obtain ⟨-, -, -, -, -, hstd, hgne⟩ := scoreRecordForBin_eq_some (mem_get_score_records h)
  have hpos : 0 < (binGroup (get_lender_to_loan_amount_bins
      (cityDfOf df cities r.city)) r.loan_amount_bin).length :=
    List.length_pos.mpr hgne
  refine ⟨hstd, ?_⟩
  rw [hstd]
  unfold stdOfBin std_sq
  rw [List.length_map]
  split_ifs with hlt
  · exact ⟨fun _ => by omega, fun _ => rfl⟩
  · exact ⟨fun hcon => by simp at hcon, fun hlen => by omega⟩

/-- Witness for C7 on the concrete DOVER example (two lenders, so the value is
present: the squared sample deviation 5000/9). -/
theorem score_record_std_dev_witness :
    exRecord.bin_num_loans_pct_std_dev
      = std_sq ((binGroup (get_lender_to_loan_amount_bins
          (cityDfOf exDf ["DOVER"] exRecord.city)) exRecord.loan_amount_bin).map
            (fun s => s.lender_num_loans_pct)) ∧
    (exRecord.bin_num_loans_pct_std_dev = none
      ↔ (binGroup (get_lender_to_loan_amount_bins
          (cityDfOf exDf ["DOVER"] exRecord.city)) exRecord.loan_amount_bin).length = 1) :=
  score_record_std_dev exDf ["DOVER"] exRecord exRecord_mem

/-- Counterexample to C2 as stated: the code computes `lender_num_loans_pct`
(source lines 107-111) before dropping below-threshold groups (source lines
113-115). On a concrete city frame with a single 5-loan bin, the table at the
percentage-computation stage contains that below-threshold group, with its
percentage already computed. -/
theorem pct_computed_before_drop_counterexample :
    withPct (get_lender_to_loan_amount_bins exC2df) = [exC2Row] ∧
    exC2Row.bin_num_loans < BIN_NUM_LOANS_MIN_THREASHOLD ∧
    exC2Row.lender_num_loans_pct = 100 := by
  refine ⟨by with_unfolding_all rfl, by decide, rfl⟩

/-- C2 amended: the below-threshold drop happens at source lines 113-115,
after the percentage computation of lines 107-111, not before it, and there is
no separate precondition check; division by zero still cannot occur, because
every aggregated lender-bin row counts at least one loan, so `bin_num_loans`
is positive for every row at the moment its percentage is computed. After the
drop, every remaining row has `bin_num_loans` at least 10. -/
theorem pct_denominator_positive (city_df : List LoanRecord) :
    (∀ s ∈ withPct (get_lender_to_loan_amount_bins city_df), 0 < s.bin_num_loans) ∧
    (∀ s ∈ filteredScored (get_lender_to_loan_amount_bins city_df),
      BIN_NUM_LOANS_MIN_THREASHOLD ≤ s.bin_num_loans) := by
  constructor
  · intro s hs
    unfold withPct at hs
    rw [List.mem_map] at hs
    obtain ⟨r0, hr0, rfl⟩ := hs
    have h1 : 1 ≤ r0.num_loans := mem_rows_num_loans hr0
    have h2 : r0.num_loans ∈ loanCounts (get_lender_to_loan_amount_bins city_df)
        r0.loan_amount_bin := by
      unfold loanCounts
      rw [List.mem_map]
      exact ⟨r0, List.mem_filter.mpr ⟨hr0, by simp⟩, rfl⟩
    have h3 : r0.num_loans ≤ binNumLoansOf (get_lender_to_loan_amount_bins city_df)
        r0.loan_amount_bin :=
      List.single_le_sum (fun _ _ => Nat.zero_le _) _ h2
    show 0 < (mkScoredRow (get_lender_to_loan_amount_bins city_df) r0).bin_num_loans
    simp only [mkScoredRow]
    omega
  · intro s hs
    unfold filteredScored at hs
    simpa using (List.mem_filter.mp hs).2

/-- Witness for the amended C2: on the concrete 5-loan frame, the single row
at the percentage stage has a positive denominator. -/
theorem pct_denominator_positive_witness :
    exC2Row ∈ withPct (get_lender_to_loan_amount_bins exC2df) ∧
    0 < exC2Row.bin_num_loans :=
  have hmem : exC2Row ∈ withPct (get_lender_to_loan_amount_bins exC2df) := by
    have h : withPct (get_lender_to_loan_amount_bins exC2df) = [exC2Row] := by
      with_unfolding_all rfl
    rw [h]
    exact List.mem_singleton.mpr rfl
  ⟨hmem, (pct_denominator_positive exC2df).1 exC2Row hmem⟩

end MarketMonopoly
